import Mathlib

/-!
Shallow embedding of the timelang parser and renderer (src/lib.rs).

The source is a syn-based recursive-descent parser over a token stream of
identifiers, integer literals and the punctuation `/`, `:`, `,`.  We model
the already-tokenized input as a `List Tok` and each `impl Parse for T` as a
function `List Tok → PResult T`.  A syn `ParseStream` is a mutable cursor;
`fork` yields an independent snapshot, which functionally is just reusing the
current list.  `input.parse::<T>()?` propagates errors, which `pbind` models.
Machine integers are `Nat` with the `u8`/`u16`/`u64` bounds checked exactly
where the source calls `base10_parse`; the `u64` addition used by the
`Duration` accumulator is modelled with an explicit overflow outcome
(`PResult.panicked`), matching Rust's checked (debug) addition semantics.
-/

namespace Timelang

/-- Token kinds consumed by the grammar: `syn::Ident`, `syn::LitInt`
(carrying the literal's magnitude, unbounded at the lexical level), and the
punctuation tokens `/`, `:` and `,`. -/
inductive Tok where
  | ident (s : String)
  | int (n : Nat)
  | slash
  | colon
  | comma
deriving DecidableEq, Repr

/-- Outcome of running a parser: success with the value and the remaining
tokens, a structured error (we keep only the message; spans are dropped), or
a Rust panic (only reachable through u64 overflow in `impl Add for Number`). -/
inductive PResult (α : Type) where
  | ok (a : α) (rest : List Tok)
  | err (msg : String)
  | panicked
deriving DecidableEq, Repr

/-- Sequencing that models `input.parse::<T>()?`: errors and panics
propagate unchanged. -/
def pbind {α β : Type} (r : PResult α) (f : α → List Tok → PResult β) : PResult β :=
  match r with
  | .ok a rest => f a rest
  | .err e => .err e
  | .panicked => .panicked

/-- Mapping over a successful result (used for enum-constructor wrapping). -/
def pmap {α β : Type} (f : α → β) (r : PResult α) : PResult β :=
  match r with
  | .ok a rest => .ok (f a) rest
  | .err e => .err e
  | .panicked => .panicked

/-- ASCII lowercasing of a character, as `str::to_lowercase` acts on the
ASCII keywords of the grammar. -/
def lowChar (c : Char) : Char :=
  if 65 ≤ c.toNat ∧ c.toNat ≤ 90 then Char.ofNat (c.toNat + 32) else c

/-- ASCII lowercasing of a string (`ident.to_string().to_lowercase()`). -/
def lowStr (s : String) : String :=
  ⟨s.data.map lowChar⟩

/-! ## The AST (data model of src/lib.rs) -/

/-- `pub struct Number(pub u64)`: a non-negative integer magnitude. -/
structure Number where
  val : Nat
deriving DecidableEq, Repr

/-- `pub enum Month` with `January = 1` through `December = 12`. -/
inductive Month where
  | january | february | march | april | may | june
  | july | august | september | october | november | december
deriving DecidableEq, Repr

/-- `pub enum AmPm { AM, PM }`. -/
inductive AmPm where
  | am | pm
deriving DecidableEq, Repr

/-- `pub struct DayOfMonth(pub u8)`, validated 1..=31 at parse time. -/
structure DayOfMonth where
  val : Nat
deriving DecidableEq, Repr

/-- `pub struct Year(pub u16)`. -/
structure Year where
  val : Nat
deriving DecidableEq, Repr

/-- `pub struct Minute(pub u8)`, validated 0..=60 at parse time. -/
structure Minute where
  val : Nat
deriving DecidableEq, Repr

/-- `pub enum Hour { Hour12(u8, AmPm), Hour24(u8) }`. -/
inductive Hour where
  | hour12 (h : Nat) (ap : AmPm)
  | hour24 (h : Nat)
deriving DecidableEq, Repr

/-- `pub struct Date(pub Month, pub DayOfMonth, pub Year)`. -/
structure Date where
  month : Month
  day : DayOfMonth
  year : Year
deriving DecidableEq, Repr

/-- `pub struct Time(pub Hour, pub Minute)`. -/
structure Time where
  hour : Hour
  minute : Minute
deriving DecidableEq, Repr

/-- `pub struct DateTime(pub Date, pub Time)`. -/
structure DateTime where
  date : Date
  time : Time
deriving DecidableEq, Repr

/-- `pub enum AbsoluteTime { Date(Date), DateTime(DateTime) }`. -/
inductive AbsoluteTime where
  | date (d : Date)
  | dateTime (dt : DateTime)
deriving DecidableEq, Repr

/-- `pub enum TimeUnit`. -/
inductive TimeUnit where
  | minutes | hours | days | weeks | months | years
deriving DecidableEq, Repr

/-- `pub struct Duration`, one `Number` per `TimeUnit` in declared field
order minutes..years. -/
structure Duration where
  minutes : Number
  hours : Number
  days : Number
  weeks : Number
  months : Number
  years : Number
deriving DecidableEq, Repr

/-- `pub enum RelativeTimeUnit`. -/
inductive RelativeTimeUnit where
  | week | month | year
  | monday | tuesday | wednesday | thursday | friday | saturday | sunday
deriving DecidableEq, Repr

/-- `pub enum NamedRelativeTime`. -/
inductive NamedRelativeTime where
  | now | today | tomorrow | yesterday | dayAfterTomorrow | dayBeforeYesterday
deriving DecidableEq, Repr

/-- `pub enum TimeDirection`. -/
inductive TimeDirection where
  | afterAbsolute (t : AbsoluteTime)
  | beforeAbsolute (t : AbsoluteTime)
  | afterNamed (n : NamedRelativeTime)
  | beforeNamed (n : NamedRelativeTime)
  | beforeNext (u : RelativeTimeUnit)
  | beforeLast (u : RelativeTimeUnit)
  | afterNext (u : RelativeTimeUnit)
  | afterLast (u : RelativeTimeUnit)
  | ago
  | fromNow
deriving DecidableEq, Repr

/-- `pub enum RelativeTime`. -/
inductive RelativeTime where
  | directional (duration : Duration) (dir : TimeDirection)
  | named (n : NamedRelativeTime)
  | next (u : RelativeTimeUnit)
  | last (u : RelativeTimeUnit)
deriving DecidableEq, Repr

/-- `pub enum PointInTime { Absolute(AbsoluteTime), Relative(RelativeTime) }`. -/
inductive PointInTime where
  | absolute (t : AbsoluteTime)
  | relative (t : RelativeTime)
deriving DecidableEq, Repr

/-- `pub struct TimeRange(pub PointInTime, pub PointInTime)`. -/
structure TimeRange where
  start : PointInTime
  stop : PointInTime
deriving DecidableEq, Repr

/-- `pub enum TimeExpression`. -/
inductive TimeExpression where
  | specific (p : PointInTime)
  | range (r : TimeRange)
  | duration (d : Duration)
deriving DecidableEq, Repr

/-! ## Keyword tables (the case-folded lookups inside the field parsers) -/

/-- The match inside `impl Parse for AmPm` (and the membership test
`["am","pm"].contains(..)` in `Time::parse`, which checks the same set). -/
def amPmOf (s : String) : Option AmPm :=
  match lowStr s with
  | "am" => some .am
  | "pm" => some .pm
  | _ => none

/-- The synonym table inside `impl Parse for TimeUnit`. -/
def timeUnitOf (s : String) : Option TimeUnit :=
  match lowStr s with
  | "mins" | "minutes" | "minute" | "min" => some .minutes
  | "hours" | "hrs" | "hour" | "hr" => some .hours
  | "days" | "day" => some .days
  | "weeks" | "week" => some .weeks
  | "months" | "month" => some .months
  | "years" | "yr" | "year" => some .years
  | _ => none

/-- The table inside `impl Parse for RelativeTimeUnit`. -/
def rtuOf (s : String) : Option RelativeTimeUnit :=
  match lowStr s with
  | "week" => some .week
  | "month" => some .month
  | "year" => some .year
  | "monday" => some .monday
  | "tuesday" => some .tuesday
  | "wednesday" => some .wednesday
  | "thursday" => some .thursday
  | "friday" => some .friday
  | "saturday" => some .saturday
  | "sunday" => some .sunday
  | _ => none

/-- The single-identifier variants of `NamedRelativeTime::parse`. -/
def singleNamedOf (s : String) : Option NamedRelativeTime :=
  match lowStr s with
  | "now" => some .now
  | "today" => some .today
  | "tomorrow" => some .tomorrow
  | "yesterday" => some .yesterday
  | _ => none

/-- The table inside `Month::parse` mapping the validated 1..=12 value. -/
def monthOf (n : Nat) : Month :=
  match n with
  | 1 => .january | 2 => .february | 3 => .march | 4 => .april
  | 5 => .may | 6 => .june | 7 => .july | 8 => .august
  | 9 => .september | 10 => .october | 11 => .november | _ => .december

/-- `impl From<Month> for u8`. -/
def monthNum (m : Month) : Nat :=
  match m with
  | .january => 1 | .february => 2 | .march => 3 | .april => 4
  | .may => 5 | .june => 6 | .july => 7 | .august => 8
  | .september => 9 | .october => 10 | .november => 11 | .december => 12

/-! ## Primitive token eaters (syn primitives)

`input.parse::<Ident>()`, `input.parse::<LitInt>()` and the punctuation
parses consume exactly one matching token and consume nothing on failure. -/

/-- `input.parse::<Ident>()`. -/
def eatIdent (toks : List Tok) : PResult String :=
  match toks with
  | .ident s :: r => .ok s r
  | _ => .err "expected identifier"

/-- `input.parse::<LitInt>()` (the magnitude is still unbounded here;
`base10_parse::<uN>` bounds are checked by each caller). -/
def eatInt (toks : List Tok) : PResult Nat :=
  match toks with
  | .int n :: r => .ok n r
  | _ => .err "expected integer literal"

/-- `input.parse::<Token![/]>()`. -/
def eatSlash (toks : List Tok) : PResult Unit :=
  match toks with
  | .slash :: r => .ok () r
  | _ => .err "expected `/`"

/-- `input.parse::<Token![:]>()`. -/
def eatColon (toks : List Tok) : PResult Unit :=
  match toks with
  | .colon :: r => .ok () r
  | _ => .err "expected `:`"

/-! ## Field parsers -/

/-- `impl Parse for Number`: one `LitInt`, `base10_parse::<u64>` (fails when
the literal does not fit in a u64). -/
def numberParse (toks : List Tok) : PResult Number :=
  pbind (eatInt toks) fun n r =>
    if n < 2 ^ 64 then .ok ⟨n⟩ r else .err "number too large to fit in u64"

/-- `impl Parse for TimeUnit`: one identifier looked up in the synonym
table. -/
def timeUnitParse (toks : List Tok) : PResult TimeUnit :=
  pbind (eatIdent toks) fun s r =>
    match timeUnitOf s with
    | some u => .ok u r
    | none => .err "expected one of `minutes`, `hours`, `days`, `weeks`, `months`, and `years`"

/-- `impl Parse for RelativeTimeUnit`. -/
def rtuParse (toks : List Tok) : PResult RelativeTimeUnit :=
  pbind (eatIdent toks) fun s r =>
    match rtuOf s with
    | some u => .ok u r
    | none => .err "expected a relative time unit"

/-- `impl Parse for AmPm`. -/
def amPmParse (toks : List Tok) : PResult AmPm :=
  pbind (eatIdent toks) fun s r =>
    match amPmOf s with
    | some ap => .ok ap r
    | none => .err "expected `AM` or `PM`"

/-- `impl Parse for Minute`: `LitInt`, `base10_parse::<u8>`, then the 0..=60
range check. -/
def minuteParse (toks : List Tok) : PResult Minute :=
  pbind (eatInt toks) fun n r =>
    if n < 256 then
      if n > 60 then .err "minute must be between 0 and 60 (inclusive)"
      else .ok ⟨n⟩ r
    else .err "number too large to fit in u8"

/-- `impl Parse for DayOfMonth`: `base10_parse::<u8>` then 1..=31. -/
def dayOfMonthParse (toks : List Tok) : PResult DayOfMonth :=
  pbind (eatInt toks) fun n r =>
    if n < 256 then
      if n > 31 ∨ n = 0 then .err "day must be between 1 and 31 (inclusive)"
      else .ok ⟨n⟩ r
    else .err "number too large to fit in u8"

/-- `impl Parse for Year`: `base10_parse::<u16>`, no further constraint. -/
def yearParse (toks : List Tok) : PResult Year :=
  pbind (eatInt toks) fun n r =>
    if n < 65536 then .ok ⟨n⟩ r else .err "number too large to fit in u16"

/-- `impl Parse for Month`: `base10_parse::<u8>`, 1..=12, then the table. -/
def monthParse (toks : List Tok) : PResult Month :=
  pbind (eatInt toks) fun n r =>
    if n < 256 then
      if n > 12 ∨ n = 0 then .err "month must be between 1 and 12 (inclusive)"
      else .ok (monthOf n) r
    else .err "number too large to fit in u8"

/-- `impl Parse for Hour` (the standalone hour parser).  The source runs
`if let Ok(am_pm) = input.parse::<AmPm>()` on the real stream, so when the
next token is an identifier that is not am/pm, that identifier has already
been consumed by the failed `AmPm` attempt and stays consumed. -/
def hourParse (toks : List Tok) : PResult Hour :=
  pbind (eatInt toks) fun n r =>
    if n < 256 then
      match r with
      | .ident s :: r2 =>
        match amPmOf s with
        | some ap =>
          if n > 12 ∨ n = 0 then .err "hour must be between 1 and 12 (inclusive)"
          else .ok (.hour12 n ap) r2
        | none =>
          -- the failed `AmPm` attempt consumed the identifier
          if n > 24 then .err "hour must be between 0 and 24 (inclusive)"
          else .ok (.hour24 n) r2
      | r2 =>
        if n > 24 then .err "hour must be between 0 and 24 (inclusive)"
        else .ok (.hour24 n) r2
    else .err "number too large to fit in u8"

/-! ## Node parsers -/

/-- `impl Parse for Date`: `DayOfMonth '/' Month '/' Year`, building
`Date(month, day, year)`. -/
def dateParse (toks : List Tok) : PResult Date :=
  pbind (dayOfMonthParse toks) fun day r1 =>
  pbind (eatSlash r1) fun _ r2 =>
  pbind (monthParse r2) fun mo r3 =>
  pbind (eatSlash r3) fun _ r4 =>
  pbind (yearParse r4) fun yr r5 =>
  .ok ⟨mo, day, yr⟩ r5

/-- `impl Parse for Time`: hour literal (`base10_parse::<u8>`), `:`, Minute,
then the fork-peeked am/pm lookahead.  The source peeks the next identifier
on a fork and tests membership in `["am","pm"]`; only on a match does it
consume via `AmPm::parse` (the same case-folded set, merged here into one
`amPmOf` lookup).  On a mismatch the identifier is left unconsumed. -/
def timeParse (toks : List Tok) : PResult Time :=
  pbind (eatInt toks) fun hourVal r1 =>
  if hourVal < 256 then
    pbind (eatColon r1) fun _ r2 =>
    pbind (minuteParse r2) fun minute r3 =>
    match r3 with
    | .ident s :: r4 =>
      match amPmOf s with
      | some ap =>
        if hourVal > 12 ∨ hourVal = 0 then
          .err "hour must be between 1 and 12 (inclusive)"
        else .ok ⟨.hour12 hourVal ap, minute⟩ r4
      | none =>
        -- lookahead mismatch: the identifier is not consumed
        if hourVal > 24 then .err "hour must be between 0 and 24 (inclusive)"
        else .ok ⟨.hour24 hourVal, minute⟩ (.ident s :: r4)
    | r4 =>
      if hourVal > 24 then .err "hour must be between 0 and 24 (inclusive)"
      else .ok ⟨.hour24 hourVal, minute⟩ r4
  else .err "number too large to fit in u8"

/-- `impl Parse for DateTime`: a `Date`, then an optional filler identifier
that must equal (case-insensitively) `at` when present, then a `Time`. -/
def dateTimeParse (toks : List Tok) : PResult DateTime :=
  pbind (dateParse toks) fun date r1 =>
  match r1 with
  | .ident s :: r2 =>
    if lowStr s = "at" then
      pbind (timeParse r2) fun t r3 => .ok ⟨date, t⟩ r3
    else .err "expected `at`"
  | r2 =>
    pbind (timeParse r2) fun t r3 => .ok ⟨date, t⟩ r3

/-- The 3-token lookahead of `AbsoluteTime::parse` after the speculative
`Date`: `(LitInt, ':', LitInt)` or `(Ident, LitInt, ':')` signal that a
time follows. -/
def timeFollows (toks : List Tok) : Bool :=
  match toks with
  | .int _ :: .colon :: .int _ :: _ => true
  | .ident _ :: .int _ :: .colon :: _ => true
  | _ => false

/-- `impl Parse for AbsoluteTime`: speculatively parse a `Date` on a fork
(`fork.parse::<Date>()?` — a failure propagates), inspect up to 3 tokens
after it on the fork, then commit to `DateTime` or `Date` on the real
cursor. -/
def absoluteTimeParse (toks : List Tok) : PResult AbsoluteTime :=
  pbind (dateParse toks) fun _ rest =>
    if timeFollows rest then pmap .dateTime (dateTimeParse toks)
    else pmap .date (dateParse toks)

/-- The optional leading `the` of `NamedRelativeTime::parse`
(`if ident1 == "the" && input.peek(Ident) { ident1 = input.parse()?; }`).
Note that `the` is compared case-SENSITIVELY in the source (`==` on the
`Ident` itself), unlike every other keyword comparison. -/
def theStrip (s1 : String) (r1 : List Tok) : String × List Tok :=
  if s1 = "the" then
    match r1 with
    | .ident s1b :: r1b => (s1b, r1b)
    | _ => (s1, r1)
  else (s1, r1)

/-- `impl Parse for NamedRelativeTime`: single-identifier idioms first,
then the optional `the`, then the two three-word idioms with the
word-dependent diagnostics of the source. -/
def namedRelativeTimeParse (toks : List Tok) : PResult NamedRelativeTime :=
  pbind (eatIdent toks) fun s1 r1 =>
  match singleNamedOf s1 with
  | some v => .ok v r1
  | none =>
    -- optional `the` (see `theStrip`), consumed only when followed by
    -- another identifier
    match theStrip s1 r1 with
    | (w1, r1b) =>
    pbind (eatIdent r1b) fun s2 r2 =>
    pbind (eatIdent r2) fun s3 r3 =>
    match lowStr w1, lowStr s2, lowStr s3 with
    | "day", "after", "tomorrow" => .ok .dayAfterTomorrow r3
    | "day", "before", "yesterday" => .ok .dayBeforeYesterday r3
    | l1, l2, l3 =>
      if l1 ≠ "day" then
        .err "expected one of `day`, `now`, `today`, `tomorrow`, `yesterday`, `the`"
      else if l2 ≠ "before" ∧ l2 ≠ "after" then
        .err "expected `before` or `after`"
      else if l3 = "tomorrow" then .err "expected `yesterday`"
      else .err "expected `tomorrow`"

/-- `impl Parse for TimeDirection`: branch on the first identifier
(`after`, `before`, `ago`, `from`); `after`/`before` then branch on a
literal (absolute) versus a fork-peeked `next`/`last`/other identifier. -/
def timeDirectionParse (toks : List Tok) : PResult TimeDirection :=
  pbind (eatIdent toks) fun s1 rest =>
  match lowStr s1 with
  | "after" =>
    match rest with
    | .int _ :: _ => pmap .afterAbsolute (absoluteTimeParse rest)
    | .ident s2 :: rest2 =>
      match lowStr s2 with
      | "next" => pmap .afterNext (rtuParse rest2)
      | "last" => pmap .afterLast (rtuParse rest2)
      | _ => pmap .afterNamed (namedRelativeTimeParse rest)
    | _ => .err "expected identifier"
  | "before" =>
    match rest with
    | .int _ :: _ => pmap .beforeAbsolute (absoluteTimeParse rest)
    | .ident s2 :: rest2 =>
      match lowStr s2 with
      | "next" => pmap .beforeNext (rtuParse rest2)
      | "last" => pmap .beforeLast (rtuParse rest2)
      | _ => pmap .beforeNamed (namedRelativeTimeParse rest)
    | _ => .err "expected identifier"
  | "ago" => .ok .ago rest
  | "from" =>
    pbind (eatIdent rest) fun s2 rest2 =>
      if lowStr s2 = "now" then .ok .fromNow rest2
      else .err "expected `now`"
  | _ => .err "expected one of `after`, `before`, `ago`, `from`"

/-! ## Duration parsing (the accumulation loop) -/

/-- The per-unit accumulators of `Duration::parse`
(`Option<Number>` locals; `None` means the unit never occurred). -/
structure DurAcc where
  minutes : Option Nat
  hours : Option Nat
  days : Option Nat
  weeks : Option Nat
  months : Option Nat
  years : Option Nat
deriving DecidableEq, Repr

/-- `impl Add for Number`: `Number(self.0 + rhs.0)` on `u64`.  In a debug
build an overflowing addition panics; `none` models that panic. -/
def addU64 (a b : Nat) : Option Nat :=
  if a + b < 2 ^ 64 then some (a + b) else none

/-- One arm of the `match unit` in the loop body:
`acc = Some(acc.unwrap_or(Number(0)) + num)` on the unit's accumulator. -/
def accAdd (acc : DurAcc) (u : TimeUnit) (n : Nat) : Option DurAcc :=
  match u with
  | .minutes => (addU64 (acc.minutes.getD 0) n).map fun v => { acc with minutes := some v }
  | .hours => (addU64 (acc.hours.getD 0) n).map fun v => { acc with hours := some v }
  | .days => (addU64 (acc.days.getD 0) n).map fun v => { acc with days := some v }
  | .weeks => (addU64 (acc.weeks.getD 0) n).map fun v => { acc with weeks := some v }
  | .months => (addU64 (acc.months.getD 0) n).map fun v => { acc with months := some v }
  | .years => (addU64 (acc.years.getD 0) n).map fun v => { acc with years := some v }

/-- `if input.peek(Token![,]) { input.parse::<Token![,]>()?; }`. -/
def stripComma (l : List Tok) : List Tok :=
  match l with
  | .comma :: r => r
  | _ => l

/-- The fork-peeked optional `and`: the next identifier is consumed only if
it case-insensitively equals `and`. -/
def stripAnd (l : List Tok) : List Tok :=
  match l with
  | .ident s :: r => if lowStr s = "and" then r else .ident s :: r
  | _ => l

theorem stripComma_length (l : List Tok) : (stripComma l).length ≤ l.length := by
  cases l with
  | nil => simp [stripComma]
  | cons t r => cases t <;> simp [stripComma]

theorem stripAnd_length (l : List Tok) : (stripAnd l).length ≤ l.length := by
  cases l with
  | nil => simp [stripAnd]
  | cons t r =>
    cases t <;> simp [stripAnd]
    split <;> simp

/-- The `while input.peek(LitInt)` loop of `Duration::parse`.  Each
iteration inlines `Number::parse` (one literal, `base10_parse::<u64>`) and
`TimeUnit::parse` (one identifier, synonym table), adds into the unit's
accumulator, then strips an optional comma and an optional `and`.  The
recursion is structural on a fuel: each iteration consumes at least two
tokens and recurses on a suffix, so any fuel of at least `toks.length`
gives the exact loop semantics (`durLoop_fuel`); `durationParse` passes
`toks.length`. -/
def durLoop : Nat → DurAcc → List Tok → PResult DurAcc
  | fuel + 1, acc, .int n :: rest =>
    if n < 2 ^ 64 then
      match rest with
      | .ident u :: rest2 =>
        match timeUnitOf u with
        | some unit =>
          match accAdd acc unit n with
          | some acc2 => durLoop fuel acc2 (stripAnd (stripComma rest2))
          | none => .panicked
        | none => .err "expected one of `minutes`, `hours`, `days`, `weeks`, `months`, and `years`"
      | _ => .err "expected identifier"
    else .err "number too large to fit in u64"
  | _, acc, toks => .ok acc toks

/-- `impl Parse for Duration`: run the loop from all-`None` accumulators,
fail when zero number–unit pairs were parsed, else default every missing
unit to 0. -/
def durationParse (toks : List Tok) : PResult Duration :=
  match durLoop toks.length ⟨none, none, none, none, none, none⟩ toks with
  | .ok acc rest =>
    if acc.minutes.isNone ∧ acc.hours.isNone ∧ acc.days.isNone
        ∧ acc.weeks.isNone ∧ acc.months.isNone ∧ acc.years.isNone then
      .err "expected [number] followed by one of `minutes`, `hours`, `days`, `years`"
    else
      .ok ⟨⟨acc.minutes.getD 0⟩, ⟨acc.hours.getD 0⟩, ⟨acc.days.getD 0⟩,
           ⟨acc.weeks.getD 0⟩, ⟨acc.months.getD 0⟩, ⟨acc.years.getD 0⟩⟩ rest
  | .err e => .err e
  | .panicked => .panicked

/-! ## Remaining node parsers -/

/-- The fall-through arm of `RelativeTime::parse`:
`Duration` followed by `TimeDirection`. -/
def directionalParse (toks : List Tok) : PResult RelativeTime :=
  pbind (durationParse toks) fun dur r1 =>
  pbind (timeDirectionParse r1) fun dir r2 =>
  .ok (.directional dur dir) r2

/-- `impl Parse for RelativeTime`: fork-peek the first identifier;
`next`/`last` consume it and read a `RelativeTimeUnit`; the named-idiom
keywords delegate to `NamedRelativeTime::parse` on the real cursor; anything
else falls through to `Duration` + `TimeDirection`. -/
def relativeTimeParse (toks : List Tok) : PResult RelativeTime :=
  match toks with
  | .ident s :: rest =>
    match lowStr s with
    | "next" => pbind (rtuParse rest) fun u r => .ok (.next u) r
    | "last" => pbind (rtuParse rest) fun u r => .ok (.last u) r
    | "day" | "now" | "today" | "tomorrow" | "yesterday" | "the" =>
      pmap .named (namedRelativeTimeParse toks)
    | _ => directionalParse toks
  | _ => directionalParse toks

/-- `impl Parse for PointInTime`: two-token lookahead `(LitInt, '/')`
selects `AbsoluteTime`, anything else `RelativeTime`. -/
def pointInTimeParse (toks : List Tok) : PResult PointInTime :=
  match toks with
  | .int _ :: .slash :: _ => pmap .absolute (absoluteTimeParse toks)
  | _ => pmap .relative (relativeTimeParse toks)

/-- `impl Parse for TimeRange`: `from` PointInTime `to` PointInTime, both
keywords case-insensitive. -/
def timeRangeParse (toks : List Tok) : PResult TimeRange :=
  pbind (eatIdent toks) fun s1 r1 =>
  if lowStr s1 = "from" then
    pbind (pointInTimeParse r1) fun t1 r2 =>
    pbind (eatIdent r2) fun s2 r3 =>
    if lowStr s2 = "to" then
      pbind (pointInTimeParse r3) fun t2 r4 => .ok ⟨t1, t2⟩ r4
    else .err "expected `to`"
  else .err "expected `from`"

/-- `impl Parse for TimeExpression` (the root): fail unless the first token
is an identifier or a literal; a leading identifier commits to `TimeRange`
(`return Ok(TimeExpression::Range(input.parse()?))`, whose failure
propagates); `(LitInt, '/')` commits to `PointInTime`; otherwise a full
`PointInTime` is tried on a fork, committing `Specific` on success and
falling back to `Duration` on failure. -/
def timeExpressionParse (toks : List Tok) : PResult TimeExpression :=
  match toks with
  | .ident _ :: _ => pmap .range (timeRangeParse toks)
  | .int _ :: rest =>
    match rest with
    | .slash :: _ => pmap .specific (pointInTimeParse toks)
    | _ =>
      match pointInTimeParse toks with
      | .ok _ _ => pmap .specific (pointInTimeParse toks)
      | .panicked => .panicked
      | .err _ => pmap .duration (durationParse toks)
  | _ => .err "expected [number] or [keyword]"

/-! ## Renderers (the `Display` impls needed by the claims) -/

/-- `impl AsRef<str> for TimeUnit`, reproduced exactly as written in the
source — including the `Weeks => "minutes"` arm.  `Display` for `TimeUnit`
writes this string. -/
def timeUnitAsRef (u : TimeUnit) : String :=
  match u with
  | .minutes => "minutes"
  | .hours => "hours"
  | .days => "days"
  | .weeks => "minutes"
  | .months => "months"
  | .years => "years"

/-- The string one component block of `Duration::fmt` writes when the
component is non-zero: `"1 <singular>"` when the value is 1, else
`"<value> <plural>"` (the value printed via `Number`'s `Display`, i.e. plain
decimal). -/
def compStr (sing plur : String) (c : Nat) : String :=
  if c = 1 then "1 " ++ sing else Nat.repr c ++ " " ++ plur

/-- One component block of `Duration::fmt`, threading the `before` flag and
the output accumulated so far.  The source writes, per component:
`if c > 0 { if before { ", " } before = true }` followed by
`if c == 1 { singular } else if c > 1 { plural }`; under `c > 0` the second
pair of guards is exactly `compStr`, and when `c == 0` nothing is written
and `before` is unchanged.  (For the `years` block the source sets `before`
without a separator check, which is equivalent because `before` is still
`false` there; for the final `minutes` block the source never sets `before`,
which cannot affect the returned string.) -/
def durStep (sing plur : String) (c : Nat) (st : Bool × String) : Bool × String :=
  if c > 0 then
    (true, st.2 ++ (if st.1 then ", " else "") ++ compStr sing plur c)
  else st

/-- The six components of a `Duration` in the order `Duration::fmt` visits
them (years, months, weeks, days, hours, minutes), each with its singular
and plural unit word. -/
def durFields (d : Duration) : List (String × String × Nat) :=
  [("year", "years", d.years.val),
   ("month", "months", d.months.val),
   ("week", "weeks", d.weeks.val),
   ("day", "days", d.days.val),
   ("hour", "hours", d.hours.val),
   ("minute", "minutes", d.minutes.val)]

/-- `impl Display for Duration`: replay the six component blocks in order
starting from `before = false` and an empty output. -/
def durationDisplay (d : Duration) : String :=
  ((durFields d).foldl (fun st t => durStep t.1 t.2.1 t.2.2 st) (false, "")).2

/-! Spec-side rendering (the words of the zero-omission property):
every zero component is omitted entirely, and `", "` is inserted exactly
between two printed components. -/

/-- Modelled from the spec: the list of printed component strings of a
`Duration` — each non-zero component contributes its rendered text, each
zero component is omitted entirely. -/
def durPart (sing plur : String) (c : Nat) : List String :=
  if c > 0 then [compStr sing plur c] else []

/-- Modelled from the spec: all printed components of a `Duration`, in
rendering order. -/
def durParts (d : Duration) : List String :=
  ((durFields d).map fun t => durPart t.1 t.2.1 t.2.2).flatten

/-- Modelled from the spec: concatenate parts, inserting the separator
`", "` exactly before each part that follows an already-printed part (the
flag records whether something was already printed). -/
def partsRender (before : Bool) (l : List String) : String :=
  match l with
  | [] => ""
  | s :: rest => (if before then ", " else "") ++ s ++ partsRender true rest

/-! ## Infrastructure lemmas: result inversion, no-panic, suffixes -/

theorem pbind_ok_ex {α β : Type} {r : PResult α} {f : α → List Tok → PResult β}
    {b : β} {rest : List Tok} (h : pbind r f = .ok b rest) :
    ∃ a mid, r = .ok a mid ∧ f a mid = .ok b rest := by
  cases r with
  | ok a mid => exact ⟨a, mid, rfl, h⟩
  | err e => exact PResult.noConfusion h
  | panicked => exact PResult.noConfusion h

theorem pmap_ok_ex {α β : Type} {g : α → β} {r : PResult α}
    {b : β} {rest : List Tok} (h : pmap g r = .ok b rest) :
    ∃ a, r = .ok a rest ∧ b = g a := by
  cases r with
  | ok a mid => cases h; exact ⟨a, rfl, rfl⟩
  | err e => exact PResult.noConfusion h
  | panicked => exact PResult.noConfusion h

theorem pbind_noPanic {α β : Type} {r : PResult α} {f : α → List Tok → PResult β}
    (hr : r ≠ .panicked) (hf : ∀ a m, r = .ok a m → f a m ≠ .panicked) :
    pbind r f ≠ .panicked := by
  cases r with
  | ok a m => exact hf a m rfl
  | err e => exact fun hh => PResult.noConfusion hh
  | panicked => exact absurd rfl hr

theorem pmap_noPanic {α β : Type} {g : α → β} {r : PResult α}
    (hr : r ≠ .panicked) : pmap g r ≠ .panicked := by
  cases r with
  | ok a m => exact fun hh => PResult.noConfusion hh
  | err e => exact fun hh => PResult.noConfusion hh
  | panicked => exact absurd rfl hr

/-- Sum of all integer-literal tokens in a token list. -/
def intSum : List Tok → Nat
  | [] => 0
  | .int n :: r => n + intSum r
  | _ :: r => intSum r

theorem intSum_append (a b : List Tok) : intSum (a ++ b) = intSum a + intSum b := by
  induction a with
  | nil => simp [intSum]
  | cons t r ih =>
    cases t <;> simp [intSum, ih]
    omega

theorem intSum_suffix {a b : List Tok} (h : a <:+ b) : intSum a ≤ intSum b := by
  obtain ⟨pre, rfl⟩ := h
  rw [intSum_append]
  omega

/-! No-panic and suffix lemmas for the primitive eaters. -/

theorem eatIdent_noPanic (toks : List Tok) : eatIdent toks ≠ .panicked := by
  unfold eatIdent; split <;> exact fun hh => PResult.noConfusion hh

theorem eatInt_noPanic (toks : List Tok) : eatInt toks ≠ .panicked := by
  unfold eatInt; split <;> exact fun hh => PResult.noConfusion hh

theorem eatSlash_noPanic (toks : List Tok) : eatSlash toks ≠ .panicked := by
  unfold eatSlash; split <;> exact fun hh => PResult.noConfusion hh

theorem eatColon_noPanic (toks : List Tok) : eatColon toks ≠ .panicked := by
  unfold eatColon; split <;> exact fun hh => PResult.noConfusion hh

theorem eatIdent_suffix {toks : List Tok} {s : String} {rest : List Tok}
    (h : eatIdent toks = .ok s rest) : rest <:+ toks := by
  unfold eatIdent at h
  split at h
  · cases h; exact List.suffix_cons _ _
  · exact PResult.noConfusion h

theorem eatInt_suffix {toks : List Tok} {n : Nat} {rest : List Tok}
    (h : eatInt toks = .ok n rest) : rest <:+ toks := by
  unfold eatInt at h
  split at h
  · cases h; exact List.suffix_cons _ _
  · exact PResult.noConfusion h

theorem eatSlash_suffix {toks : List Tok} {u : Unit} {rest : List Tok}
    (h : eatSlash toks = .ok u rest) : rest <:+ toks := by
  unfold eatSlash at h
  split at h
  · cases h; exact List.suffix_cons _ _
  · exact PResult.noConfusion h

theorem eatColon_suffix {toks : List Tok} {u : Unit} {rest : List Tok}
    (h : eatColon toks = .ok u rest) : rest <:+ toks := by
  unfold eatColon at h
  split at h
  · cases h; exact List.suffix_cons _ _
  · exact PResult.noConfusion h

/-! No-panic and suffix lemmas for the field parsers. -/

theorem numberParse_noPanic (toks : List Tok) : numberParse toks ≠ .panicked := by
  unfold numberParse
  refine pbind_noPanic (eatInt_noPanic toks) fun n r _ => ?_
  split <;> exact fun hh => PResult.noConfusion hh

theorem numberParse_suffix {toks : List Tok} {a : Number} {rest : List Tok}
    (h : numberParse toks = .ok a rest) : rest <:+ toks := by
  unfold numberParse at h
  obtain ⟨n, r, h1, h⟩ := pbind_ok_ex h
  split at h
  · cases h; exact eatInt_suffix h1
  · exact PResult.noConfusion h

theorem timeUnitParse_noPanic (toks : List Tok) : timeUnitParse toks ≠ .panicked := by
  unfold timeUnitParse
  refine pbind_noPanic (eatIdent_noPanic toks) fun s r _ => ?_
  split <;> exact fun hh => PResult.noConfusion hh

theorem timeUnitParse_suffix {toks : List Tok} {a : TimeUnit} {rest : List Tok}
    (h : timeUnitParse toks = .ok a rest) : rest <:+ toks := by
  unfold timeUnitParse at h
  obtain ⟨s, r, h1, h⟩ := pbind_ok_ex h
  split at h
  · cases h; exact eatIdent_suffix h1
  · exact PResult.noConfusion h

theorem rtuParse_noPanic (toks : List Tok) : rtuParse toks ≠ .panicked := by
  unfold rtuParse
  refine pbind_noPanic (eatIdent_noPanic toks) fun s r _ => ?_
  split <;> exact fun hh => PResult.noConfusion hh

theorem rtuParse_suffix {toks : List Tok} {a : RelativeTimeUnit} {rest : List Tok}
    (h : rtuParse toks = .ok a rest) : rest <:+ toks := by
  unfold rtuParse at h
  obtain ⟨s, r, h1, h⟩ := pbind_ok_ex h
  split at h
  · cases h; exact eatIdent_suffix h1
  · exact PResult.noConfusion h

theorem minuteParse_noPanic (toks : List Tok) : minuteParse toks ≠ .panicked := by
  unfold minuteParse
  refine pbind_noPanic (eatInt_noPanic toks) fun n r _ => ?_
  split
  · split <;> exact fun hh => PResult.noConfusion hh
  · exact fun hh => PResult.noConfusion hh

theorem minuteParse_suffix {toks : List Tok} {a : Minute} {rest : List Tok}
    (h : minuteParse toks = .ok a rest) : rest <:+ toks := by
  unfold minuteParse at h
  obtain ⟨n, r, h1, h⟩ := pbind_ok_ex h
  split at h
  · split at h
    · exact PResult.noConfusion h
    · cases h; exact eatInt_suffix h1
  · exact PResult.noConfusion h

theorem dayOfMonthParse_noPanic (toks : List Tok) : dayOfMonthParse toks ≠ .panicked := by
  unfold dayOfMonthParse
  refine pbind_noPanic (eatInt_noPanic toks) fun n r _ => ?_
  split
  · split <;> exact fun hh => PResult.noConfusion hh
  · exact fun hh => PResult.noConfusion hh

theorem dayOfMonthParse_suffix {toks : List Tok} {a : DayOfMonth} {rest : List Tok}
    (h : dayOfMonthParse toks = .ok a rest) : rest <:+ toks := by
  unfold dayOfMonthParse at h
  obtain ⟨n, r, h1, h⟩ := pbind_ok_ex h
  split at h
  · split at h
    · exact PResult.noConfusion h
    · cases h; exact eatInt_suffix h1
  · exact PResult.noConfusion h

theorem yearParse_noPanic (toks : List Tok) : yearParse toks ≠ .panicked := by
  unfold yearParse
  refine pbind_noPanic (eatInt_noPanic toks) fun n r _ => ?_
  split <;> exact fun hh => PResult.noConfusion hh

theorem yearParse_suffix {toks : List Tok} {a : Year} {rest : List Tok}
    (h : yearParse toks = .ok a rest) : rest <:+ toks := by
  unfold yearParse at h
  obtain ⟨n, r, h1, h⟩ := pbind_ok_ex h
  split at h
  · cases h; exact eatInt_suffix h1
  · exact PResult.noConfusion h

theorem monthParse_noPanic (toks : List Tok) : monthParse toks ≠ .panicked := by
  unfold monthParse
  refine pbind_noPanic (eatInt_noPanic toks) fun n r _ => ?_
  split
  · split <;> exact fun hh => PResult.noConfusion hh
  · exact fun hh => PResult.noConfusion hh

theorem monthParse_suffix {toks : List Tok} {a : Month} {rest : List Tok}
    (h : monthParse toks = .ok a rest) : rest <:+ toks := by
  unfold monthParse at h
  obtain ⟨n, r, h1, h⟩ := pbind_ok_ex h
  split at h
  · split at h
    · exact PResult.noConfusion h
    · cases h; exact eatInt_suffix h1
  · exact PResult.noConfusion h

theorem hourParse_noPanic (toks : List Tok) : hourParse toks ≠ .panicked := by
  unfold hourParse
  refine pbind_noPanic (eatInt_noPanic toks) fun n r _ => ?_
  split
  · split
    · split <;> split <;> exact fun hh => PResult.noConfusion hh
    · split <;> exact fun hh => PResult.noConfusion hh
  · exact fun hh => PResult.noConfusion hh

/-! No-panic and suffix lemmas for the node parsers. -/

theorem dateParse_noPanic (toks : List Tok) : dateParse toks ≠ .panicked := by
  unfold dateParse
  refine pbind_noPanic (dayOfMonthParse_noPanic toks) fun day r1 _ => ?_
  refine pbind_noPanic (eatSlash_noPanic r1) fun u1 r2 _ => ?_
  refine pbind_noPanic (monthParse_noPanic r2) fun mo r3 _ => ?_
  refine pbind_noPanic (eatSlash_noPanic r3) fun u2 r4 _ => ?_
  refine pbind_noPanic (yearParse_noPanic r4) fun yr r5 _ => ?_
  exact fun hh => PResult.noConfusion hh

theorem dateParse_suffix {toks : List Tok} {d : Date} {rest : List Tok}
    (h : dateParse toks = .ok d rest) : rest <:+ toks := by
  unfold dateParse at h
  obtain ⟨day, r1, h1, h⟩ := pbind_ok_ex h
  obtain ⟨u1, r2, h2, h⟩ := pbind_ok_ex h
  obtain ⟨mo, r3, h3, h⟩ := pbind_ok_ex h
  obtain ⟨u2, r4, h4, h⟩ := pbind_ok_ex h
  obtain ⟨yr, r5, h5, h⟩ := pbind_ok_ex h
  cases h
  exact ((((yearParse_suffix h5).trans (eatSlash_suffix h4)).trans
    (monthParse_suffix h3)).trans (eatSlash_suffix h2)).trans (dayOfMonthParse_suffix h1)

theorem timeParse_noPanic (toks : List Tok) : timeParse toks ≠ .panicked := by
  unfold timeParse
  refine pbind_noPanic (eatInt_noPanic toks) fun hourVal r1 _ => ?_
  split
  · refine pbind_noPanic (eatColon_noPanic r1) fun u2 r2 _ => ?_
    refine pbind_noPanic (minuteParse_noPanic r2) fun m r3 _ => ?_
    repeat' split
    all_goals exact fun hh => PResult.noConfusion hh
  · exact fun hh => PResult.noConfusion hh

theorem timeParse_suffix {toks : List Tok} {a : Time} {rest : List Tok}
    (h : timeParse toks = .ok a rest) : rest <:+ toks := by
  unfold timeParse at h
  obtain ⟨hv, r1, h1, h⟩ := pbind_ok_ex h
  split at h
  · obtain ⟨u2, r2, h2, h⟩ := pbind_ok_ex h
    obtain ⟨m, r3, h3, h⟩ := pbind_ok_ex h
    have hr3 : r3 <:+ toks :=
      ((minuteParse_suffix h3).trans (eatColon_suffix h2)).trans (eatInt_suffix h1)
    split at h
    · split at h
      · split at h
        · exact PResult.noConfusion h
        · cases h
          exact (List.suffix_cons _ _).trans hr3
      · split at h
        · exact PResult.noConfusion h
        · cases h; exact hr3
    · split at h
      · exact PResult.noConfusion h
      · cases h; exact hr3
  · exact PResult.noConfusion h

theorem dateTimeParse_noPanic (toks : List Tok) : dateTimeParse toks ≠ .panicked := by
  unfold dateTimeParse
  refine pbind_noPanic (dateParse_noPanic toks) fun d r1 _ => ?_
  split
  · split
    · refine pbind_noPanic (timeParse_noPanic _) fun t r3 _ => ?_
      exact fun hh => PResult.noConfusion hh
    · exact fun hh => PResult.noConfusion hh
  · refine pbind_noPanic (timeParse_noPanic _) fun t r3 _ => ?_
    exact fun hh => PResult.noConfusion hh

theorem dateTimeParse_suffix {toks : List Tok} {a : DateTime} {rest : List Tok}
    (h : dateTimeParse toks = .ok a rest) : rest <:+ toks := by
  unfold dateTimeParse at h
  obtain ⟨d, r1, h1, h⟩ := pbind_ok_ex h
  have hr1 := dateParse_suffix h1
  split at h
  · split at h
    · obtain ⟨t, r3, h3, h⟩ := pbind_ok_ex h
      cases h
      exact ((timeParse_suffix h3).trans (List.suffix_cons _ _)).trans hr1
    · exact PResult.noConfusion h
  · obtain ⟨t, r3, h3, h⟩ := pbind_ok_ex h
    cases h
    exact (timeParse_suffix h3).trans hr1

theorem absoluteTimeParse_noPanic (toks : List Tok) : absoluteTimeParse toks ≠ .panicked := by
  unfold absoluteTimeParse
  refine pbind_noPanic (dateParse_noPanic toks) fun d mid _ => ?_
  split
  · exact pmap_noPanic (dateTimeParse_noPanic toks)
  · exact pmap_noPanic (dateParse_noPanic toks)

theorem absoluteTimeParse_suffix {toks : List Tok} {a : AbsoluteTime} {rest : List Tok}
    (h : absoluteTimeParse toks = .ok a rest) : rest <:+ toks := by
  unfold absoluteTimeParse at h
  obtain ⟨d, mid, h1, h⟩ := pbind_ok_ex h
  split at h
  · obtain ⟨dt, hdt, rfl⟩ := pmap_ok_ex h
    exact dateTimeParse_suffix hdt
  · obtain ⟨d2, hd2, rfl⟩ := pmap_ok_ex h
    exact dateParse_suffix hd2

theorem theStrip_suffix (s1 : String) (r1 : List Tok) : (theStrip s1 r1).2 <:+ r1 := by
  unfold theStrip
  repeat' split
  all_goals first
    | exact List.suffix_rfl
    | exact List.suffix_cons _ _

theorem namedRelativeTimeParse_noPanic (toks : List Tok) :
    namedRelativeTimeParse toks ≠ .panicked := by
  unfold namedRelativeTimeParse
  refine pbind_noPanic (eatIdent_noPanic toks) fun s1 r1 _ => ?_
  split
  · exact fun hh => PResult.noConfusion hh
  · split
    refine pbind_noPanic (eatIdent_noPanic _) fun s2 r2 _ => ?_
    refine pbind_noPanic (eatIdent_noPanic _) fun s3 r3 _ => ?_
    repeat' split
    all_goals exact fun hh => PResult.noConfusion hh

theorem namedRelativeTimeParse_suffix {toks : List Tok} {a : NamedRelativeTime}
    {rest : List Tok} (h : namedRelativeTimeParse toks = .ok a rest) : rest <:+ toks := by
  unfold namedRelativeTimeParse at h
  obtain ⟨s1, r1, h1, h⟩ := pbind_ok_ex h
  have hr1 := eatIdent_suffix h1
  split at h
  · cases h; exact hr1
  · split at h
    rename_i w1 r1b hsplit
    obtain ⟨s2, r2, h2, h⟩ := pbind_ok_ex h
    obtain ⟨s3, r3, h3, h⟩ := pbind_ok_ex h
    have hr1b : r1b <:+ r1 := by
      have := theStrip_suffix s1 r1
      rw [hsplit] at this
      exact this
    have hr3 : r3 <:+ toks :=
      (((eatIdent_suffix h3).trans (eatIdent_suffix h2)).trans hr1b).trans hr1
    split at h
    · cases h; exact hr3
    · cases h; exact hr3
    · split at h
      · exact PResult.noConfusion h
      · split at h
        · exact PResult.noConfusion h
        · split at h <;> exact PResult.noConfusion h

theorem timeDirectionParse_noPanic (toks : List Tok) :
    timeDirectionParse toks ≠ .panicked := by
  unfold timeDirectionParse
  refine pbind_noPanic (eatIdent_noPanic toks) fun s1 rest _ => ?_
  split
  · split
    · exact pmap_noPanic (absoluteTimeParse_noPanic _)
    · split
      · exact pmap_noPanic (rtuParse_noPanic _)
      · exact pmap_noPanic (rtuParse_noPanic _)
      · exact pmap_noPanic (namedRelativeTimeParse_noPanic _)
    · exact fun hh => PResult.noConfusion hh
  · split
    · exact pmap_noPanic (absoluteTimeParse_noPanic _)
    · split
      · exact pmap_noPanic (rtuParse_noPanic _)
      · exact pmap_noPanic (rtuParse_noPanic _)
      · exact pmap_noPanic (namedRelativeTimeParse_noPanic _)
    · exact fun hh => PResult.noConfusion hh
  · exact fun hh => PResult.noConfusion hh
  · refine pbind_noPanic (eatIdent_noPanic _) fun s2 rest2 _ => ?_
    split <;> exact fun hh => PResult.noConfusion hh
  · exact fun hh => PResult.noConfusion hh

theorem timeDirectionParse_suffix {toks : List Tok} {a : TimeDirection} {rest : List Tok}
    (h : timeDirectionParse toks = .ok a rest) : rest <:+ toks := by
  unfold timeDirectionParse at h
  obtain ⟨s1, r1, h1, h⟩ := pbind_ok_ex h
  have hr1 := eatIdent_suffix h1
  split at h
  · split at h
    · obtain ⟨x, hx, rfl⟩ := pmap_ok_ex h
      exact (absoluteTimeParse_suffix hx).trans hr1
    · split at h
      · obtain ⟨x, hx, rfl⟩ := pmap_ok_ex h
        exact ((rtuParse_suffix hx).trans (List.suffix_cons _ _)).trans hr1
      · obtain ⟨x, hx, rfl⟩ := pmap_ok_ex h
        exact ((rtuParse_suffix hx).trans (List.suffix_cons _ _)).trans hr1
      · obtain ⟨x, hx, rfl⟩ := pmap_ok_ex h
        exact (namedRelativeTimeParse_suffix hx).trans hr1
    · exact PResult.noConfusion h
  · split at h
    · obtain ⟨x, hx, rfl⟩ := pmap_ok_ex h
      exact (absoluteTimeParse_suffix hx).trans hr1
    · split at h
      · obtain ⟨x, hx, rfl⟩ := pmap_ok_ex h
        exact ((rtuParse_suffix hx).trans (List.suffix_cons _ _)).trans hr1
      · obtain ⟨x, hx, rfl⟩ := pmap_ok_ex h
        exact ((rtuParse_suffix hx).trans (List.suffix_cons _ _)).trans hr1
      · obtain ⟨x, hx, rfl⟩ := pmap_ok_ex h
        exact (namedRelativeTimeParse_suffix hx).trans hr1
    · exact PResult.noConfusion h
  · cases h; exact hr1
  · obtain ⟨s2, r2, h2, h⟩ := pbind_ok_ex h
    split at h
    · cases h; exact (eatIdent_suffix h2).trans hr1
    · exact PResult.noConfusion h
  · exact PResult.noConfusion h

/-! Lemmas about the Duration accumulation loop. -/

theorem stripComma_suffix (l : List Tok) : stripComma l <:+ l := by
  unfold stripComma
  split
  · exact List.suffix_cons _ _
  · exact List.suffix_rfl

theorem stripAnd_suffix (l : List Tok) : stripAnd l <:+ l := by
  unfold stripAnd
  split
  · split
    · exact List.suffix_cons _ _
    · exact List.suffix_rfl
  · exact List.suffix_rfl

/-- Total of all per-unit accumulators (missing units count 0). -/
def accSum (a : DurAcc) : Nat :=
  a.minutes.getD 0 + a.hours.getD 0 + a.days.getD 0
    + a.weeks.getD 0 + a.months.getD 0 + a.years.getD 0

theorem accAdd_some {acc : DurAcc} {u : TimeUnit} {n : Nat}
    (h : accSum acc + n < 2 ^ 64) :
    ∃ acc2, accAdd acc u n = some acc2 ∧ accSum acc2 = accSum acc + n := by
  cases u with
  | minutes =>
    refine ⟨{ acc with minutes := some (acc.minutes.getD 0 + n) }, ?_, ?_⟩
    · simp only [accAdd, addU64]
      rw [if_pos (by unfold accSum at h; omega)]
      rfl
    · simp [accSum]; omega
  | hours =>
    refine ⟨{ acc with hours := some (acc.hours.getD 0 + n) }, ?_, ?_⟩
    · simp only [accAdd, addU64]
      rw [if_pos (by unfold accSum at h; omega)]
      rfl
    · simp [accSum]; omega
  | days =>
    refine ⟨{ acc with days := some (acc.days.getD 0 + n) }, ?_, ?_⟩
    · simp only [accAdd, addU64]
      rw [if_pos (by unfold accSum at h; omega)]
      rfl
    · simp [accSum]; omega
  | weeks =>
    refine ⟨{ acc with weeks := some (acc.weeks.getD 0 + n) }, ?_, ?_⟩
    · simp only [accAdd, addU64]
      rw [if_pos (by unfold accSum at h; omega)]
      rfl
    · simp [accSum]; omega
  | months =>
    refine ⟨{ acc with months := some (acc.months.getD 0 + n) }, ?_, ?_⟩
    · simp only [accAdd, addU64]
      rw [if_pos (by unfold accSum at h; omega)]
      rfl
    · simp [accSum]; omega
  | years =>
    refine ⟨{ acc with years := some (acc.years.getD 0 + n) }, ?_, ?_⟩
    · simp only [accAdd, addU64]
      rw [if_pos (by unfold accSum at h; omega)]
      rfl
    · simp [accSum]; omega

/-- Unfolding equation of `durLoop` at a number–unit pair. -/
theorem durLoop_pair (fuel : Nat) (acc : DurAcc) (n : Nat) (u : String) (rest2 : List Tok) :
    durLoop (fuel + 1) acc (.int n :: .ident u :: rest2) =
      (if n < 2 ^ 64 then
        match timeUnitOf u with
        | some unit =>
          (match accAdd acc unit n with
           | some acc2 => durLoop fuel acc2 (stripAnd (stripComma rest2))
           | none => .panicked)
        | none =>
          .err "expected one of `minutes`, `hours`, `days`, `weeks`, `months`, and `years`"
      else .err "number too large to fit in u64") := rfl

/-- Unfolding equation of `durLoop` at a recognised number–unit pair. -/
theorem durLoop_step {n : Nat} {u : String} (fuel : Nat) (acc : DurAcc) (rest2 : List Tok)
    (hn : n < 2 ^ 64) {unit : TimeUnit} (hu : timeUnitOf u = some unit) :
    durLoop (fuel + 1) acc (.int n :: .ident u :: rest2) =
      (match accAdd acc unit n with
       | some acc2 => durLoop fuel acc2 (stripAnd (stripComma rest2))
       | none => .panicked) := by
  rw [durLoop_pair, if_pos hn, hu]

/-- Unfolding equation of `durLoop` at an integer literal that is not
followed by an identifier. -/
theorem durLoop_int_noIdent (fuel : Nat) (acc : DurAcc) (n : Nat) (rest : List Tok)
    (h : ∀ u r2, rest ≠ .ident u :: r2) :
    durLoop (fuel + 1) acc (.int n :: rest) =
      (if n < 2 ^ 64 then .err "expected identifier"
       else .err "number too large to fit in u64") := by
  cases rest with
  | nil => rfl
  | cons t r =>
    cases t with
    | ident s => exact absurd rfl (h s r)
    | int m => rfl
    | slash => rfl
    | colon => rfl
    | comma => rfl

/-- Out of fuel, the loop returns its exit value. -/
theorem durLoop_zero (acc : DurAcc) (toks : List Tok) :
    durLoop 0 acc toks = .ok acc toks := rfl

/-- Unfolding equation of `durLoop` when the loop guard fails. -/
theorem durLoop_exit (fuel : Nat) (acc : DurAcc) (toks : List Tok)
    (h : ∀ n rest, toks ≠ .int n :: rest) : durLoop fuel acc toks = .ok acc toks := by
  cases fuel with
  | zero => rfl
  | succ f =>
    cases toks with
    | nil => rfl
    | cons t rest =>
      cases t with
      | int n => exact absurd rfl (h n rest)
      | ident s => rfl
      | slash => rfl
      | colon => rfl
      | comma => rfl

/-- Any fuel of at least the token count gives the same loop result (each
iteration consumes at least two tokens and recurses on a suffix), so
`durationParse`'s choice of `toks.length` realises the unbounded `while`
loop of the source. -/
theorem durLoop_fuel (fuel1 : Nat) :
    ∀ (fuel2 : Nat) (acc : DurAcc) (toks : List Tok), toks.length ≤ fuel1 →
      toks.length ≤ fuel2 → durLoop fuel1 acc toks = durLoop fuel2 acc toks := by
  induction fuel1 with
  | zero =>
    intro fuel2 acc toks h1 h2
    have hnil : toks = [] := List.eq_nil_of_length_eq_zero (Nat.le_zero.mp h1)
    subst hnil
    rw [durLoop_zero, durLoop_exit _ _ _ (by intro n r hh; exact List.noConfusion hh)]
  | succ f1 ih =>
    intro fuel2 acc toks h1 h2
    cases toks with
    | nil =>
      rw [durLoop_exit _ _ _ (by intro n r hh; exact List.noConfusion hh),
        durLoop_exit _ _ _ (by intro n r hh; exact List.noConfusion hh)]
    | cons t rest =>
      cases t with
      | ident s =>
        rw [durLoop_exit _ _ _ (by intro n r hh; cases hh),
          durLoop_exit _ _ _ (by intro n r hh; cases hh)]
      | slash =>
        rw [durLoop_exit _ _ _ (by intro n r hh; cases hh),
          durLoop_exit _ _ _ (by intro n r hh; cases hh)]
      | colon =>
        rw [durLoop_exit _ _ _ (by intro n r hh; cases hh),
          durLoop_exit _ _ _ (by intro n r hh; cases hh)]
      | comma =>
        rw [durLoop_exit _ _ _ (by intro n r hh; cases hh),
          durLoop_exit _ _ _ (by intro n r hh; cases hh)]
      | int n =>
        cases fuel2 with
        | zero => simp at h2
        | succ f2 =>
          cases rest with
          | nil =>
            rw [durLoop_int_noIdent _ _ _ _ (by intro u r2 hh; cases hh),
              durLoop_int_noIdent _ _ _ _ (by intro u r2 hh; cases hh)]
          | cons t2 rest2 =>
            cases t2 with
            | ident u =>
              by_cases hn : n < 2 ^ 64
              · cases hu : timeUnitOf u with
                | none => rw [durLoop_pair, durLoop_pair, if_pos hn, if_pos hn, hu]
                | some unit =>
                  rw [durLoop_step f1 acc rest2 hn hu, durLoop_step f2 acc rest2 hn hu]
                  cases hadd : accAdd acc unit n with
                  | none => rfl
                  | some acc2 =>
                    have ha := stripAnd_length (stripComma rest2)
                    have hb := stripComma_length rest2
                    simp only [List.length_cons] at h1 h2
                    exact ih f2 acc2 (stripAnd (stripComma rest2)) (by omega) (by omega)
              · rw [durLoop_pair, durLoop_pair, if_neg hn, if_neg hn]
            | int m =>
              rw [durLoop_int_noIdent _ _ _ _ (by intro u r2 hh; cases hh),
                durLoop_int_noIdent _ _ _ _ (by intro u r2 hh; cases hh)]
            | slash =>
              rw [durLoop_int_noIdent _ _ _ _ (by intro u r2 hh; cases hh),
                durLoop_int_noIdent _ _ _ _ (by intro u r2 hh; cases hh)]
            | colon =>
              rw [durLoop_int_noIdent _ _ _ _ (by intro u r2 hh; cases hh),
                durLoop_int_noIdent _ _ _ _ (by intro u r2 hh; cases hh)]
            | comma =>
              rw [durLoop_int_noIdent _ _ _ _ (by intro u r2 hh; cases hh),
                durLoop_int_noIdent _ _ _ _ (by intro u r2 hh; cases hh)]

/-- The accumulation loop cannot hit the overflow panic as long as the
accumulated total plus every remaining integer literal stays below `2^64`. -/
theorem durLoop_noPanic (fuel : Nat) :
    ∀ (toks : List Tok) (acc : DurAcc),
      accSum acc + intSum toks < 2 ^ 64 → durLoop fuel acc toks ≠ .panicked := by
  induction fuel with
  | zero =>
    intro toks acc _
    rw [durLoop_zero]
    exact fun hh => PResult.noConfusion hh
  | succ f ih =>
    intro toks acc hsum
    cases toks with
    | nil =>
      rw [durLoop_exit _ _ _ (by intro n r hh; exact List.noConfusion hh)]
      exact fun hh => PResult.noConfusion hh
    | cons t rest =>
      cases t with
      | ident s =>
        rw [durLoop_exit _ _ _ (by intro n r hh; cases hh)]
        exact fun hh => PResult.noConfusion hh
      | slash =>
        rw [durLoop_exit _ _ _ (by intro n r hh; cases hh)]
        exact fun hh => PResult.noConfusion hh
      | colon =>
        rw [durLoop_exit _ _ _ (by intro n r hh; cases hh)]
        exact fun hh => PResult.noConfusion hh
      | comma =>
        rw [durLoop_exit _ _ _ (by intro n r hh; cases hh)]
        exact fun hh => PResult.noConfusion hh
      | int n =>
        by_cases hn : n < 2 ^ 64
        · cases rest with
          | nil =>
            rw [durLoop_int_noIdent _ _ _ _ (by intro u r2 hh; cases hh), if_pos hn]
            exact fun hh => PResult.noConfusion hh
          | cons t2 rest2 =>
            cases t2 with
            | ident u =>
              cases hu : timeUnitOf u with
              | none =>
                rw [durLoop_pair, if_pos hn, hu]
                exact fun hh => PResult.noConfusion hh
              | some unit =>
                have hintEq : intSum (Tok.int n :: Tok.ident u :: rest2)
                    = n + intSum rest2 := rfl
                have hn2 : accSum acc + n < 2 ^ 64 := by omega
                obtain ⟨acc2, heq, hsum2⟩ :=
                  @accAdd_some acc unit n hn2
                rw [durLoop_step f acc rest2 hn hu, heq]
                have hstrip : intSum (stripAnd (stripComma rest2)) ≤ intSum rest2 :=
                  (intSum_suffix (stripAnd_suffix _)).trans
                    (intSum_suffix (stripComma_suffix _))
                exact ih (stripAnd (stripComma rest2)) acc2 (by omega)
            | int m =>
              rw [durLoop_int_noIdent _ _ _ _ (by intro u r2 hh; cases hh), if_pos hn]
              exact fun hh => PResult.noConfusion hh
            | slash =>
              rw [durLoop_int_noIdent _ _ _ _ (by intro u r2 hh; cases hh), if_pos hn]
              exact fun hh => PResult.noConfusion hh
            | colon =>
              rw [durLoop_int_noIdent _ _ _ _ (by intro u r2 hh; cases hh), if_pos hn]
              exact fun hh => PResult.noConfusion hh
            | comma =>
              rw [durLoop_int_noIdent _ _ _ _ (by intro u r2 hh; cases hh), if_pos hn]
              exact fun hh => PResult.noConfusion hh
        · cases rest with
          | nil =>
            rw [durLoop_int_noIdent _ _ _ _ (by intro u r2 hh; cases hh), if_neg hn]
            exact fun hh => PResult.noConfusion hh
          | cons t2 rest2 =>
            cases t2 with
            | ident u =>
              rw [durLoop_pair, if_neg hn]
              exact fun hh => PResult.noConfusion hh
            | int m =>
              rw [durLoop_int_noIdent _ _ _ _ (by intro u r2 hh; cases hh), if_neg hn]
              exact fun hh => PResult.noConfusion hh
            | slash =>
              rw [durLoop_int_noIdent _ _ _ _ (by intro u r2 hh; cases hh), if_neg hn]
              exact fun hh => PResult.noConfusion hh
            | colon =>
              rw [durLoop_int_noIdent _ _ _ _ (by intro u r2 hh; cases hh), if_neg hn]
              exact fun hh => PResult.noConfusion hh
            | comma =>
              rw [durLoop_int_noIdent _ _ _ _ (by intro u r2 hh; cases hh), if_neg hn]
              exact fun hh => PResult.noConfusion hh

/-- On success the accumulation loop leaves a suffix of its input. -/
theorem durLoop_suffix (fuel : Nat) :
    ∀ (toks : List Tok) (acc acc2 : DurAcc) (rest : List Tok),
      durLoop fuel acc toks = .ok acc2 rest → rest <:+ toks := by
  induction fuel with
  | zero =>
    intro toks acc acc2 rest h
    rw [durLoop_zero] at h
    cases h
    exact List.suffix_rfl
  | succ f ih =>
    intro toks acc acc2 rest h
    cases toks with
    | nil =>
      rw [durLoop_exit _ _ _ (by intro n r hh; exact List.noConfusion hh)] at h
      cases h
      exact List.suffix_rfl
    | cons t rest1 =>
      cases t with
      | ident s =>
        rw [durLoop_exit _ _ _ (by intro n r hh; cases hh)] at h
        cases h
        exact List.suffix_rfl
      | slash =>
        rw [durLoop_exit _ _ _ (by intro n r hh; cases hh)] at h
        cases h
        exact List.suffix_rfl
      | colon =>
        rw [durLoop_exit _ _ _ (by intro n r hh; cases hh)] at h
        cases h
        exact List.suffix_rfl
      | comma =>
        rw [durLoop_exit _ _ _ (by intro n r hh; cases hh)] at h
        cases h
        exact List.suffix_rfl
      | int n =>
        by_cases hn : n < 2 ^ 64
        · cases rest1 with
          | nil =>
            rw [durLoop_int_noIdent _ _ _ _ (by intro u r2 hh; cases hh), if_pos hn] at h
            exact PResult.noConfusion h
          | cons t2 rest2 =>
            cases t2 with
            | ident u =>
              cases hu : timeUnitOf u with
              | none =>
                rw [durLoop_pair, if_pos hn, hu] at h
                exact PResult.noConfusion h
              | some unit =>
                rw [durLoop_step f acc rest2 hn hu] at h
                cases hadd : accAdd acc unit n with
                | none => rw [hadd] at h; exact PResult.noConfusion h
                | some acc3 =>
                  rw [hadd] at h
                  have hsuf := ih _ _ _ _ h
                  have hr2 : rest <:+ rest2 :=
                    (hsuf.trans (stripAnd_suffix _)).trans (stripComma_suffix _)
                  exact (hr2.trans (List.suffix_cons _ _)).trans (List.suffix_cons _ _)
            | int m =>
              rw [durLoop_int_noIdent _ _ _ _ (by intro u r2 hh; cases hh), if_pos hn] at h
              exact PResult.noConfusion h
            | slash =>
              rw [durLoop_int_noIdent _ _ _ _ (by intro u r2 hh; cases hh), if_pos hn] at h
              exact PResult.noConfusion h
            | colon =>
              rw [durLoop_int_noIdent _ _ _ _ (by intro u r2 hh; cases hh), if_pos hn] at h
              exact PResult.noConfusion h
            | comma =>
              rw [durLoop_int_noIdent _ _ _ _ (by intro u r2 hh; cases hh), if_pos hn] at h
              exact PResult.noConfusion h
        · cases rest1 with
          | nil =>
            rw [durLoop_int_noIdent _ _ _ _ (by intro u r2 hh; cases hh), if_neg hn] at h
            exact PResult.noConfusion h
          | cons t2 rest2 =>
            cases t2 with
            | ident u =>
              rw [durLoop_pair, if_neg hn] at h
              exact PResult.noConfusion h
            | int m =>
              rw [durLoop_int_noIdent _ _ _ _ (by intro u r2 hh; cases hh), if_neg hn] at h
              exact PResult.noConfusion h
            | slash =>
              rw [durLoop_int_noIdent _ _ _ _ (by intro u r2 hh; cases hh), if_neg hn] at h
              exact PResult.noConfusion h
            | colon =>
              rw [durLoop_int_noIdent _ _ _ _ (by intro u r2 hh; cases hh), if_neg hn] at h
              exact PResult.noConfusion h
            | comma =>
              rw [durLoop_int_noIdent _ _ _ _ (by intro u r2 hh; cases hh), if_neg hn] at h
              exact PResult.noConfusion h

/-- `Duration::parse` cannot panic provided the integer literals of the
input sum below `2^64`. -/
theorem durationParse_noPanic {toks : List Tok} (hsum : intSum toks < 2 ^ 64) :
    durationParse toks ≠ .panicked := by
  unfold durationParse
  have h0 : accSum ⟨none, none, none, none, none, none⟩ + intSum toks < 2 ^ 64 := by
    simp only [accSum, Option.getD_none]
    omega
  have hloop := durLoop_noPanic toks.length toks _ h0
  split
  · split <;> exact fun hh => PResult.noConfusion hh
  · exact fun hh => PResult.noConfusion hh
  · rename_i heq
    exact absurd heq hloop

theorem durationParse_suffix {toks : List Tok} {d : Duration} {rest : List Tok}
    (h : durationParse toks = .ok d rest) : rest <:+ toks := by
  unfold durationParse at h
  split at h
  · rename_i acc rest1 heq
    split at h
    · exact PResult.noConfusion h
    · cases h
      exact durLoop_suffix toks.length toks _ _ _ heq
  · exact PResult.noConfusion h
  · exact PResult.noConfusion h

/-! No-panic propagation through the remaining node parsers. -/

theorem directionalParse_noPanic {toks : List Tok} (hsum : intSum toks < 2 ^ 64) :
    directionalParse toks ≠ .panicked := by
  unfold directionalParse
  refine pbind_noPanic (durationParse_noPanic hsum) fun dur r1 _ => ?_
  refine pbind_noPanic (timeDirectionParse_noPanic r1) fun dir r2 _ => ?_
  exact fun hh => PResult.noConfusion hh

theorem directionalParse_suffix {toks : List Tok} {a : RelativeTime} {rest : List Tok}
    (h : directionalParse toks = .ok a rest) : rest <:+ toks := by
  unfold directionalParse at h
  obtain ⟨dur, r1, h1, h⟩ := pbind_ok_ex h
  obtain ⟨dir, r2, h2, h⟩ := pbind_ok_ex h
  cases h
  exact (timeDirectionParse_suffix h2).trans (durationParse_suffix h1)

theorem relativeTimeParse_noPanic {toks : List Tok} (hsum : intSum toks < 2 ^ 64) :
    relativeTimeParse toks ≠ .panicked := by
  unfold relativeTimeParse
  split
  · split
    all_goals first
      | exact pbind_noPanic (rtuParse_noPanic _) fun u r _ => fun hh => PResult.noConfusion hh
      | exact pmap_noPanic (namedRelativeTimeParse_noPanic _)
      | exact directionalParse_noPanic hsum
  · exact directionalParse_noPanic hsum

theorem relativeTimeParse_suffix {toks : List Tok} {a : RelativeTime} {rest : List Tok}
    (h : relativeTimeParse toks = .ok a rest) : rest <:+ toks := by
  unfold relativeTimeParse at h
  split at h
  · split at h
    all_goals first
      | (obtain ⟨u, r, h1, h⟩ := pbind_ok_ex h
         cases h
         exact (rtuParse_suffix h1).trans (List.suffix_cons _ _))
      | (obtain ⟨x, hx, rfl⟩ := pmap_ok_ex h
         exact namedRelativeTimeParse_suffix hx)
      | exact directionalParse_suffix h
  · exact directionalParse_suffix h

theorem pointInTimeParse_noPanic {toks : List Tok} (hsum : intSum toks < 2 ^ 64) :
    pointInTimeParse toks ≠ .panicked := by
  unfold pointInTimeParse
  split
  · exact pmap_noPanic (absoluteTimeParse_noPanic _)
  · exact pmap_noPanic (relativeTimeParse_noPanic hsum)

theorem pointInTimeParse_suffix {toks : List Tok} {a : PointInTime} {rest : List Tok}
    (h : pointInTimeParse toks = .ok a rest) : rest <:+ toks := by
  unfold pointInTimeParse at h
  split at h
  · obtain ⟨x, hx, rfl⟩ := pmap_ok_ex h
    exact absoluteTimeParse_suffix hx
  · obtain ⟨x, hx, rfl⟩ := pmap_ok_ex h
    exact relativeTimeParse_suffix hx

theorem timeRangeParse_noPanic {toks : List Tok} (hsum : intSum toks < 2 ^ 64) :
    timeRangeParse toks ≠ .panicked := by
  unfold timeRangeParse
  refine pbind_noPanic (eatIdent_noPanic toks) fun s1 r1 h1 => ?_
  split
  · have hr1 : intSum r1 < 2 ^ 64 :=
      Nat.lt_of_le_of_lt (intSum_suffix (eatIdent_suffix h1)) hsum
    refine pbind_noPanic (pointInTimeParse_noPanic hr1) fun t1 r2 h2 => ?_
    refine pbind_noPanic (eatIdent_noPanic r2) fun s2 r3 h3 => ?_
    split
    · have hr3 : intSum r3 < 2 ^ 64 := by
        have ha := intSum_suffix (eatIdent_suffix h3)
        have hb := intSum_suffix (pointInTimeParse_suffix h2)
        omega
      refine pbind_noPanic (pointInTimeParse_noPanic hr3) fun t2 r4 _ => ?_
      exact fun hh => PResult.noConfusion hh
    · exact fun hh => PResult.noConfusion hh
  · exact fun hh => PResult.noConfusion hh

/-- The root parser cannot panic provided the integer literals of the input
sum below `2^64`. -/
theorem timeExpressionParse_noPanic {toks : List Tok} (hsum : intSum toks < 2 ^ 64) :
    timeExpressionParse toks ≠ .panicked := by
  unfold timeExpressionParse
  split
  · exact pmap_noPanic (timeRangeParse_noPanic hsum)
  · split
    · exact pmap_noPanic (pointInTimeParse_noPanic hsum)
    · split
      · exact pmap_noPanic (pointInTimeParse_noPanic hsum)
      · rename_i heq
        exact absurd heq (pointInTimeParse_noPanic hsum)
      · exact pmap_noPanic (durationParse_noPanic hsum)
  · exact fun hh => PResult.noConfusion hh

/-! Rendering lemmas: the stepwise `Duration::fmt` equals the
spec-side zero-omission/separator rendering. -/

theorem durPart_isEmpty (sing plur : String) (c : Nat) :
    (durPart sing plur c).isEmpty = !decide (0 < c) := by
  by_cases h : 0 < c <;> simp [durPart, h]

theorem partsRender_append (l1 l2 : List String) (b : Bool) :
    partsRender b (l1 ++ l2) = partsRender b l1 ++ partsRender (b || !l1.isEmpty) l2 := by
  induction l1 generalizing b with
  | nil => simp [partsRender, String.empty_append]
  | cons s rest ih =>
    simp [partsRender, ih, String.append_assoc]

theorem durStep_partsRender (sing plur : String) (c : Nat) (b : Bool) (out : String) :
    durStep sing plur c (b, out)
      = (b || decide (0 < c), out ++ partsRender b (durPart sing plur c)) := by
  by_cases h : 0 < c
  · simp [durStep, durPart, partsRender, h, String.append_empty, String.append_assoc]
  · simp [durStep, durPart, partsRender, h, String.append_empty]

theorem foldSteps_partsRender (l : List (String × String × Nat)) :
    ∀ (b : Bool) (out : String),
      (l.foldl (fun st t => durStep t.1 t.2.1 t.2.2 st) (b, out)).2
        = out ++ partsRender b ((l.map fun t => durPart t.1 t.2.1 t.2.2).flatten) := by
  induction l with
  | nil =>
    intro b out
    simp [partsRender, String.append_empty]
  | cons t rest ih =>
    intro b out
    simp only [List.foldl_cons, List.map_cons, List.flatten_cons]
    rw [durStep_partsRender, ih, partsRender_append, durPart_isEmpty]
    simp [String.append_assoc, Bool.not_not]

/-- `Duration::fmt` omits zero components and writes `", "` exactly between
two printed components. -/
theorem durationDisplay_partsRender (d : Duration) :
    durationDisplay d = partsRender false (durParts d) := by
  unfold durationDisplay durParts
  rw [foldSteps_partsRender]
  exact String.empty_append _

/-! ## Claim theorems -/

/-- C1: the round-trip property `parse(render(v)) = v` for every public
node type fails on the code at `v = TimeUnit::Weeks`: `TimeUnit::as_ref`
(which `Display` writes) renders `Weeks` as `"minutes"` — the same string
as `Minutes` — and parsing that rendering yields `Minutes`, not `Weeks`. -/
theorem c1_roundtrip_fails_on_weeks :
    timeUnitAsRef .weeks = "minutes"
      ∧ timeUnitAsRef .weeks = timeUnitAsRef .minutes
      ∧ timeUnitParse [Tok.ident (timeUnitAsRef .weeks)] = .ok .minutes []
      ∧ TimeUnit.minutes ≠ TimeUnit.weeks :=
  ⟨rfl, rfl, rfl, fun h => TimeUnit.noConfusion h⟩

/-- C2: with a leading identifier the root `TimeExpression` parser commits
to `TimeRange` (`return Ok(TimeExpression::Range(input.parse()?))`) and the
`?` propagates the TimeRange failure, so the bare named idioms `tomorrow`
and `now` are rejected at top level with TimeRange's "expected `from`"
error even though `RelativeTime::parse` accepts them — there is no
fall-through retry as Duration/RelativeTime. -/
theorem c2_leading_ident_commits_to_range :
    timeExpressionParse [Tok.ident "tomorrow"] = .err "expected `from`"
      ∧ timeExpressionParse [Tok.ident "now"] = .err "expected `from`"
      ∧ relativeTimeParse [Tok.ident "tomorrow"] = .ok (.named .tomorrow) []
      ∧ relativeTimeParse [Tok.ident "now"] = .ok (.named .now) [] :=
  ⟨rfl, rfl, rfl, rfl⟩

/-- C3: Duration parsing loops while the next token is an integer literal
and sums repeated units into the same per-unit accumulator — parsing
"3 minutes, 2 hours, 4 minutes" yields minutes 7, hours 2, all other
components 0 — and it fails with the zero-pair error whenever the input
does not start with an integer literal (i.e. zero pairs were parsed). -/
theorem c3_duration_accumulation :
    durationParse [Tok.int 3, Tok.ident "minutes", Tok.comma, Tok.int 2,
        Tok.ident "hours", Tok.comma, Tok.int 4, Tok.ident "minutes"]
      = .ok ⟨⟨7⟩, ⟨2⟩, ⟨0⟩, ⟨0⟩, ⟨0⟩, ⟨0⟩⟩ []
    ∧ ∀ toks : List Tok, (∀ n r, toks ≠ .int n :: r) →
        durationParse toks
          = .err "expected [number] followed by one of `minutes`, `hours`, `days`, `years`" := by
  constructor
  · rfl
  · intro toks h
    unfold durationParse
    rw [durLoop_exit _ _ _ h]
    rfl

/-- Witness for C3 at a concrete non-literal input. -/
theorem c3_duration_accumulation_witness :
    durationParse [Tok.ident "x"]
      = .err "expected [number] followed by one of `minutes`, `hours`, `days`, `years`" :=
  c3_duration_accumulation.2 [Tok.ident "x"] (by intro n r hh; cases hh)

/-- C4 as stated is false: accumulating `18446744073709551615 minutes` and
then `1 minute` makes `impl Add for Number` overflow its u64 addition,
which panics (debug overflow semantics) instead of returning an AST or a
structured error; the panic propagates through the root parser. -/
theorem c4_duration_add_panics :
    durationParse [Tok.int (2 ^ 64 - 1), Tok.ident "minutes",
        Tok.int 1, Tok.ident "minutes"] = .panicked
    ∧ timeExpressionParse [Tok.int (2 ^ 64 - 1), Tok.ident "minutes",
        Tok.int 1, Tok.ident "minutes"] = .panicked :=
  ⟨rfl, rfl⟩

/-- C4 (amended): every exposed parse operation returns either a complete
validated AST or exactly one structured error — it cannot panic — provided
the integer literals of the input sum below `2^64`, so that the u64
accumulator addition of Duration parsing cannot overflow. -/
theorem c4_parse_total_no_panic_bounded (toks : List Tok)
    (hsum : intSum toks < 2 ^ 64) :
    timeExpressionParse toks ≠ .panicked
    ∧ durationParse toks ≠ .panicked
    ∧ pointInTimeParse toks ≠ .panicked
    ∧ timeRangeParse toks ≠ .panicked
    ∧ relativeTimeParse toks ≠ .panicked
    ∧ absoluteTimeParse toks ≠ .panicked :=
  ⟨timeExpressionParse_noPanic hsum, durationParse_noPanic hsum,
   pointInTimeParse_noPanic hsum, timeRangeParse_noPanic hsum,
   relativeTimeParse_noPanic hsum, absoluteTimeParse_noPanic toks⟩

/-- Witness for the amended C4 at a concrete input. -/
theorem c4_parse_total_no_panic_bounded_witness :
    timeExpressionParse [Tok.int 3, Tok.ident "hours"] ≠ .panicked :=
  (c4_parse_total_no_panic_bounded [Tok.int 3, Tok.ident "hours"] (by decide)).1

/-- C5: Time parsing decides 12- versus 24-hour form by whether the token
after the Minute is an AM/PM identifier, without consuming that token on a
mismatch (first conjunct: the non-am/pm identifier is still in the
remaining tokens); with AM/PM present the hour must be 1..12, so
"13:00 PM" fails and "0 AM" fails, and otherwise the hour is tagged
24-hour, so "13:00" yields `Hour24 13`. -/
theorem c5_time_ampm_lookahead :
    (∀ (h m : Nat) (s : String) (rest : List Tok), h ≤ 24 → m ≤ 60 →
        amPmOf s = none →
        timeParse (Tok.int h :: Tok.colon :: Tok.int m :: Tok.ident s :: rest)
          = .ok ⟨.hour24 h, ⟨m⟩⟩ (Tok.ident s :: rest))
    ∧ (∀ (h m : Nat) (rest : List Tok), 1 ≤ h → h ≤ 12 → m ≤ 60 →
        timeParse (Tok.int h :: Tok.colon :: Tok.int m :: Tok.ident "PM" :: rest)
          = .ok ⟨.hour12 h .pm, ⟨m⟩⟩ rest)
    ∧ timeParse [Tok.int 13, Tok.colon, Tok.int 0, Tok.ident "PM"]
        = .err "hour must be between 1 and 12 (inclusive)"
    ∧ hourParse [Tok.int 0, Tok.ident "AM"]
        = .err "hour must be between 1 and 12 (inclusive)"
    ∧ timeParse [Tok.int 13, Tok.colon, Tok.int 0] = .ok ⟨.hour24 13, ⟨0⟩⟩ [] := by
  refine ⟨?_, ?_, rfl, rfl, rfl⟩
  · intro h m s rest hh hm hs
    unfold timeParse
    simp only [eatInt, pbind]
    rw [if_pos (by omega : h < 256)]
    simp only [eatColon, pbind, minuteParse, eatInt]
    rw [if_pos (by omega : m < 256), if_neg (by omega : ¬ m > 60)]
    simp only [pbind, hs]
    rw [if_neg (by omega : ¬ h > 24)]
  · intro h m rest h1 h12 hm
    unfold timeParse
    simp only [eatInt, pbind]
    rw [if_pos (by omega : h < 256)]
    simp only [eatColon, pbind, minuteParse, eatInt]
    rw [if_pos (by omega : m < 256), if_neg (by omega : ¬ m > 60)]
    simp only [pbind, show amPmOf "PM" = some AmPm.pm from rfl]
    rw [if_neg (by omega : ¬ (h > 12 ∨ h = 0))]

/-- Witness for C5 at concrete inputs, discharging both hypothesis
groups. -/
theorem c5_time_ampm_lookahead_witness :
    timeParse [Tok.int 13, Tok.colon, Tok.int 30, Tok.ident "foo"]
        = .ok ⟨.hour24 13, ⟨30⟩⟩ [Tok.ident "foo"]
    ∧ timeParse [Tok.int 5, Tok.colon, Tok.int 7, Tok.ident "PM"]
        = .ok ⟨.hour12 5 .pm, ⟨7⟩⟩ [] :=
  ⟨c5_time_ampm_lookahead.1 13 30 "foo" [] (by omega) (by omega) rfl,
   c5_time_ampm_lookahead.2.1 5 7 [] (by omega) (by omega) (by omega)⟩

/-- C6: Minute parsing accepts exactly the integers 0..=60 (60 accepted,
everything above rejected — values above 255 already fail the u8
conversion), and a standalone Hour not followed by a meridiem accepts
exactly 0..=24. -/
theorem c6_minute_hour_bounds :
    (∀ (n : Nat) (rest : List Tok), n ≤ 60 →
        minuteParse (Tok.int n :: rest) = .ok ⟨n⟩ rest)
    ∧ (∀ (n : Nat) (rest : List Tok), 60 < n →
        ∃ e, minuteParse (Tok.int n :: rest) = .err e)
    ∧ (∀ n : Nat, n ≤ 24 → hourParse [Tok.int n] = .ok (.hour24 n) [])
    ∧ (∀ n : Nat, 24 < n → ∃ e, hourParse [Tok.int n] = .err e) := by
  refine ⟨?_, ?_, ?_, ?_⟩
  · intro n rest h
    unfold minuteParse
    simp only [eatInt, pbind]
    rw [if_pos (by omega : n < 256), if_neg (by omega : ¬ n > 60)]
  · intro n rest h
    unfold minuteParse
    simp only [eatInt, pbind]
    by_cases h2 : n < 256
    · exact ⟨_, by rw [if_pos h2, if_pos (by omega : n > 60)]⟩
    · exact ⟨_, by rw [if_neg h2]⟩
  · intro n h
    unfold hourParse
    simp only [eatInt, pbind]
    rw [if_pos (by omega : n < 256), if_neg (by omega : ¬ n > 24)]
  · intro n h
    unfold hourParse
    simp only [eatInt, pbind]
    by_cases h2 : n < 256
    · exact ⟨_, by rw [if_pos h2, if_pos (by omega : n > 24)]⟩
    · exact ⟨_, by rw [if_neg h2]⟩

/-- Witness for C6 at the boundary values 60/61 and 24/25. -/
theorem c6_minute_hour_bounds_witness :
    minuteParse [Tok.int 60] = .ok ⟨60⟩ []
    ∧ (∃ e, minuteParse [Tok.int 61] = .err e)
    ∧ hourParse [Tok.int 24] = .ok (.hour24 24) []
    ∧ (∃ e, hourParse [Tok.int 25] = .err e) :=
  ⟨c6_minute_hour_bounds.1 60 [] (by omega),
   c6_minute_hour_bounds.2.1 61 [] (by omega),
   c6_minute_hour_bounds.2.2.1 24 (by omega),
   c6_minute_hour_bounds.2.2.2 25 (by omega)⟩

/-- C7: rendering a Duration omits every zero component entirely and
inserts `", "` exactly between two already-printed non-zero components
(the rendering equals the parts list joined with the separator placed
before every part that follows a printed one); rendering years=2,
minutes=1, rest 0 produces exactly "2 years, 1 minute". -/
theorem c7_duration_render_zero_omission :
    (∀ d : Duration, durationDisplay d = partsRender false (durParts d))
    ∧ durationDisplay ⟨⟨1⟩, ⟨0⟩, ⟨0⟩, ⟨0⟩, ⟨0⟩, ⟨2⟩⟩ = "2 years, 1 minute" :=
  ⟨durationDisplay_partsRender, rfl⟩

/-- C8: AbsoluteTime parsing speculatively parses a Date on a forked
cursor and then inspects up to 3 following tokens without consuming from
the real cursor; it commits to DateTime exactly when they match
`(int, ':', int)` or `(identifier, int, ':')` (the `timeFollows` guard)
and otherwise commits to Date alone, leaving the real cursor right after
the Date; a Date failure on the fork propagates. -/
theorem c8_absolute_time_disambiguation :
    (∀ (toks : List Tok) (d : Date) (rest : List Tok),
        dateParse toks = .ok d rest → timeFollows rest = true →
        absoluteTimeParse toks = pmap .dateTime (dateTimeParse toks))
    ∧ (∀ (toks : List Tok) (d : Date) (rest : List Tok),
        dateParse toks = .ok d rest → timeFollows rest = false →
        absoluteTimeParse toks = .ok (.date d) rest)
    ∧ (∀ (toks : List Tok) (e : String), dateParse toks = .err e →
        absoluteTimeParse toks = .err e)
    ∧ absoluteTimeParse [Tok.int 22, Tok.slash, Tok.int 4, Tok.slash, Tok.int 1991]
        = .ok (.date ⟨.april, ⟨22⟩, ⟨1991⟩⟩) []
    ∧ absoluteTimeParse [Tok.int 22, Tok.slash, Tok.int 4, Tok.slash, Tok.int 1991,
        Tok.int 5, Tok.colon, Tok.int 1, Tok.ident "PM"]
        = .ok (.dateTime ⟨⟨.april, ⟨22⟩, ⟨1991⟩⟩, ⟨.hour12 5 .pm, ⟨1⟩⟩⟩) [] := by
  refine ⟨?_, ?_, ?_, rfl, rfl⟩
  · intro toks d rest h1 h2
    unfold absoluteTimeParse
    rw [h1]
    simp only [pbind, h2, if_true]
  · intro toks d rest h1 h2
    unfold absoluteTimeParse
    rw [h1]
    simp only [pbind, h2, if_false, pmap]
    simp
  · intro toks e h
    unfold absoluteTimeParse
    rw [h]
    rfl

/-- Witness for C8: the Date-only commit at a date followed by a
non-time token, via the second conjunct. -/
theorem c8_absolute_time_disambiguation_witness :
    absoluteTimeParse [Tok.int 22, Tok.slash, Tok.int 4, Tok.slash, Tok.int 1991,
        Tok.ident "foo"]
      = .ok (.date ⟨.april, ⟨22⟩, ⟨1991⟩⟩) [Tok.ident "foo"] :=
  c8_absolute_time_disambiguation.2.1
    [Tok.int 22, Tok.slash, Tok.int 4, Tok.slash, Tok.int 1991, Tok.ident "foo"]
    ⟨.april, ⟨22⟩, ⟨1991⟩⟩ [Tok.ident "foo"] rfl rfl

/-- C9 as stated is false: `Number::parse` converts the literal with
`base10_parse::<u64>`, so the literal `2^64` — a perfectly well-formed
non-negative integer literal — is rejected rather than parsed. -/
theorem c9_number_u64_overflow_rejected :
    numberParse [Tok.int (2 ^ 64)] = .err "number too large to fit in u64" := rfl

/-- C9 (amended): Number parsing accepts one integer literal of any
magnitude below `2^64` (the u64 range) and returns that magnitude;
literals of `2^64` or more are rejected. -/
theorem c9_number_bounded_u64 :
    (∀ (n : Nat) (rest : List Tok), n < 2 ^ 64 →
        numberParse (Tok.int n :: rest) = .ok ⟨n⟩ rest)
    ∧ (∀ (n : Nat) (rest : List Tok), 2 ^ 64 ≤ n →
        numberParse (Tok.int n :: rest) = .err "number too large to fit in u64") := by
  constructor
  · intro n rest h
    unfold numberParse
    simp only [eatInt, pbind]
    rw [if_pos h]
  · intro n rest h
    unfold numberParse
    simp only [eatInt, pbind]
    rw [if_neg (by omega)]

/-- Witness for the amended C9 on both sides of the bound. -/
theorem c9_number_bounded_u64_witness :
    numberParse [Tok.int 18446744073709551615] = .ok ⟨18446744073709551615⟩ []
    ∧ numberParse [Tok.int 18446744073709551616] = .err "number too large to fit in u64" :=
  ⟨c9_number_bounded_u64.1 18446744073709551615 [] (by norm_num),
   c9_number_bounded_u64.2 18446744073709551616 [] (by norm_num)⟩

/-- C10: the canonical rendering of the all-zero Duration is the empty
string, and the Duration parser rejects the empty token sequence with its
zero-pairs error (it requires at least one number–unit pair). -/
theorem c10_zero_duration_renders_empty :
    durationDisplay ⟨⟨0⟩, ⟨0⟩, ⟨0⟩, ⟨0⟩, ⟨0⟩, ⟨0⟩⟩ = ""
    ∧ durationParse []
        = .err "expected [number] followed by one of `minutes`, `hours`, `days`, `years`" :=
  ⟨rfl, rfl⟩

end Timelang
